import Mathlib

/-!
Verification development for the RSCAN point-cloud core
(`rscan-desktop/src-tauri/src/point_cloud.rs`).

The embedding models:
* `f32` values as exact rationals (`ℚ`); `f32::sqrt` is modelled by a
  rational square-root approximation `ratSqrt` that is exact at `0` and at
  perfect squares (the only places where a settled statement depends on the
  numeric value of a square root, the argument is `0`);
* `[f32; 3]` as the structure `V3`, `[u8; 3]` as `RGB`;
* a text file as a `List` of lines, each line a `List Char`; `read_line`
  past end of file yields the empty line (Rust returns `Ok(0)` with the
  cleared buffer unchanged);
* `Vec` as `List`; indexing `v[i]` as `nth`, whose `none` result models the
  out-of-bounds panic; `unwrap` of a failed parse likewise maps to `none`;
* the `std::collections::HashMap` of `voxel_downsample` as an association
  list.  The map's *contents* are deterministic (first writer wins, driven
  by input order), but its `values()` iteration order is unspecified (a
  fresh randomized hasher per call); the spec's design notes discuss this
  nondeterminism.  `buildVoxels` holds the contents in first-insertion
  order; `voxel_downsample_ord` takes the iteration order as an explicit
  parameter ranging over all permutations of the contents, and
  `voxel_downsample` is its first-insertion-order instance.  Statements
  whose truth depends on the iteration order are proved against
  `voxel_downsample_ord`, quantifying over every admissible order.
-/

set_option autoImplicit false

namespace RScan

attribute [local semireducible] Rat.add Rat.mul Rat.sub Rat.inv

/-! ### Character-level string helpers

These model the `str` methods used by `from_ply`: `starts_with`,
`contains`, `trim`, `split_whitespace`, and the `parse` implementations of
`i32`, `u8` and `f32`. -/

/-- Model of `str::starts_with`: `pfx p l` is true when `p` is a prefix of `l`. -/
def pfx : List Char → List Char → Bool
  | [], _ => true
  | _ :: _, [] => false
  | a :: as, b :: bs => a == b && pfx as bs

/-- Model of `str::contains` for a substring pattern. -/
def hasSub (sub : List Char) : List Char → Bool
  | [] => sub.isEmpty
  | c :: cs => pfx sub (c :: cs) || hasSub sub cs

/-- Model of `str::trim`: drop leading and trailing whitespace. -/
def trimWS (l : List Char) : List Char :=
  ((l.dropWhile Char.isWhitespace).reverse.dropWhile Char.isWhitespace).reverse

/-- Accumulator-passing worker for `splitWS`; the accumulator holds the
current token reversed. -/
def splitWSAux : List Char → List Char → List (List Char)
  | [], acc => if acc.isEmpty then [] else [acc.reverse]
  | c :: cs, acc =>
    if c.isWhitespace then
      if acc.isEmpty then splitWSAux cs [] else acc.reverse :: splitWSAux cs []
    else splitWSAux cs (c :: acc)

/-- Model of `str::split_whitespace().collect()`: the maximal non-whitespace
runs of the line, in order. -/
def splitWS (l : List Char) : List (List Char) := splitWSAux l []

/-- Numeric value of a digit string, most significant first (no validation;
callers guard with `allDigits`). -/
def natOfDigitsAux : List Char → ℕ → ℕ
  | [], acc => acc
  | c :: cs, acc => natOfDigitsAux cs (acc * 10 + (c.toNat - 48))

/-- Parse a non-empty all-digit string as a natural number, the shared core
of the integer parsers. -/
def parseDigits (l : List Char) : Option ℕ :=
  if l.isEmpty then none
  else if l.all Char.isDigit then some (natOfDigitsAux l 0) else none

/-- Model of `str::parse::<i32>()`: optional sign, digits, i32 range check. -/
def parseI32 (l : List Char) : Option ℤ :=
  match l with
  | '+' :: r => (parseDigits r).bind fun n =>
      if n ≤ 2147483647 then some (n : ℤ) else none
  | '-' :: r => (parseDigits r).bind fun n =>
      if n ≤ 2147483648 then some (-(n : ℤ)) else none
  | _ => (parseDigits l).bind fun n =>
      if n ≤ 2147483647 then some (n : ℤ) else none

/-- Model of `str::parse::<u8>()`: optional `+`, digits, range `0..=255`. -/
def parseU8 (l : List Char) : Option ℕ :=
  (match l with
   | '+' :: r => parseDigits r
   | _ => parseDigits l).bind fun n => if n ≤ 255 then some n else none

/-- Split a float literal at the first `e`/`E`, returning the mantissa part
and, when present, the exponent part. -/
def splitExp : List Char → List Char × Option (List Char)
  | [] => ([], none)
  | c :: cs =>
    if c == 'e' || c == 'E' then ([], some cs)
    else
      let r := splitExp cs
      (c :: r.1, r.2)

/-- Split the mantissa at the first `.`, returning the integer part and,
when a dot is present, the fractional part. -/
def splitDot : List Char → List Char × Option (List Char)
  | [] => ([], none)
  | c :: cs =>
    if c == '.' then ([], some cs)
    else
      let r := splitDot cs
      (c :: r.1, r.2)

/-- Parse the (signed) exponent of a float literal. -/
def parseExp (l : List Char) : Option ℤ :=
  match l with
  | '+' :: r => (parseDigits r).map fun n => (n : ℤ)
  | '-' :: r => (parseDigits r).map fun n => -(n : ℤ)
  | _ => (parseDigits l).map fun n => (n : ℤ)

/-- Parse an unsigned float literal (`digits [. digits]`, or `. digits`,
optionally followed by an exponent) as an exact rational. -/
def parseFMag (l : List Char) : Option ℚ :=
  let me := splitExp l
  let idf := splitDot me.1
  let intPart := idf.1
  let fracPart := match idf.2 with | none => [] | some f => f
  let mantOK : Bool :=
    match idf.2 with
    | none => !intPart.isEmpty && intPart.all Char.isDigit
    | some f =>
      (!intPart.isEmpty || !f.isEmpty) && intPart.all Char.isDigit &&
        f.all Char.isDigit
  if mantOK then
    let base : ℚ :=
      (natOfDigitsAux intPart 0 : ℚ) +
        (natOfDigitsAux fracPart 0 : ℚ) / (10 : ℚ) ^ fracPart.length
    match me.2 with
    | none => some base
    | some e => (parseExp e).map fun z => base * (10 : ℚ) ^ z
  else none

/-- Model of `str::parse::<f32>()` over exact rationals.  The finite decimal
grammar of Rust's float parser is covered; `inf`/`NaN` literals and rounding
to binary floating point are not representable in `ℚ` and are outside the
model (no settled statement depends on them). -/
def parseF32 (l : List Char) : Option ℚ :=
  match l with
  | '+' :: r => parseFMag r
  | '-' :: r => (parseFMag r).map Neg.neg
  | _ => parseFMag l

/-! ### The data model (`struct PointCloud`) -/

/-- Model of `[f32; 3]`: a 3-D position or vector with exact rational
coordinates. -/
structure V3 where
  x : ℚ
  y : ℚ
  z : ℚ
deriving DecidableEq, Repr

/-- Model of `[u8; 3]`: an RGB byte triple (the parser guarantees `≤ 255`). -/
structure RGB where
  r : ℕ
  g : ℕ
  b : ℕ
deriving DecidableEq, Repr

/-- Model of `struct PointCloud { points, colors, normals }`. -/
structure PointCloud where
  points : List V3
  colors : List RGB
  normals : List V3
deriving DecidableEq, Repr

/-- Model of `PointCloud::new()`: all three sequences empty. -/
def PointCloud.new : PointCloud := ⟨[], [], []⟩

/-- Model of `Vec` indexing `v[i]` as a total function into `Option`;
`none` stands for the out-of-bounds panic. -/
def nth {α : Type} : List α → ℕ → Option α
  | [], _ => none
  | x :: _, 0 => some x
  | _ :: xs, n + 1 => nth xs n

/-! ### The reader (`PointCloud::from_ply`)

The file is a list of lines (each a `List Char`).  `BufRead::read_line` is
modelled by `nextLine`: past end of file it returns the empty line, exactly
as the source's cleared buffer stays empty when `read_line` returns
`Ok(0)`.  The header loop carries explicit fuel because the source's
`loop` has no end-of-file exit; `none` means the fuel ran out, and
`headerLoop_empty` below shows the loop is genuinely non-terminating on an
exhausted file. -/

/-- Model of one `read_line` call on the remaining lines of the file. -/
def nextLine : List (List Char) → List Char × List (List Char)
  | [] => ([], [])
  | l :: ls => (l, ls)

/-- The `"element vertex"` pattern of the header scan. -/
def evTag : List Char := "element vertex".data

/-- The `"red"` pattern of the header scan. -/
def redTag : List Char := "red".data

/-- The `"end_header"` terminator of the header scan. -/
def ehTag : List Char := "end_header".data

/-- Result of the header loop: the parsed vertex count (an `i32`), the
color flag, and the remaining lines; `panicked` models the `unwrap` panic
on a missing or unparseable vertex-count token. -/
inductive HeaderOut where
  | done (vc : ℤ) (hasColor : Bool) (rest : List (List Char))
  | panicked
deriving DecidableEq, Repr

/-- Fuel-indexed model of the header `loop` of `from_ply` (source lines
29–41): per iteration it reads a line, updates the vertex count on an
`element vertex` line (panicking when token 2 is absent or not an `i32`),
sets the color flag on a line containing `red`, and exits on a trimmed
`end_header` line.  `none` means the loop did not exit within `fuel`
iterations. -/
def headerLoop : ℕ → List (List Char) → ℤ → Bool → Option HeaderOut
  | 0, _, _, _ => none
  | fuel + 1, lines, vc, hc =>
    let l := (nextLine lines).1
    let rest := (nextLine lines).2
    match (if pfx evTag l then (nth (splitWS l) 2).bind parseI32 else some vc) with
    | none => some HeaderOut.panicked
    | some vc2 =>
      let hc2 := hc || hasSub redTag l
      if trimWS l = ehTag then some (HeaderOut.done vc2 hc2 rest)
      else headerLoop fuel rest vc2 hc2

/-- Model of the body loop of `from_ply` (source lines 44–62): for each of
the declared vertices, read a line, split it, parse the first three tokens
as floats (panicking — `none` — when a token is missing or malformed), and,
when color was declared and the line has at least 6 tokens, parse tokens
3–5 as bytes. -/
def bodyLoop (hc : Bool) : ℕ → List (List Char) → PointCloud → Option PointCloud
  | 0, _, c => some c
  | n + 1, lines, c =>
    let l := (nextLine lines).1
    let rest := (nextLine lines).2
    let vals := splitWS l
    match (nth vals 0).bind parseF32, (nth vals 1).bind parseF32,
        (nth vals 2).bind parseF32 with
    | some x, some y, some z =>
      let c2 := { c with points := c.points ++ [⟨x, y, z⟩] }
      if hc && decide (6 ≤ vals.length) then
        match (nth vals 3).bind parseU8, (nth vals 4).bind parseU8,
            (nth vals 5).bind parseU8 with
        | some r, some g, some b =>
          bodyLoop hc n rest { c2 with colors := c2.colors ++ [⟨r, g, b⟩] }
        | _, _, _ => none
      else bodyLoop hc n rest c2
    | _, _, _ => none

/-- Outcome of a `from_ply` run on an in-memory file: a returned cloud, an
`unwrap`/indexing panic, or a header loop that never exits.  I/O errors
(the `map_err` paths of the source) cannot arise on an in-memory file and
have no constructor. -/
inductive PlyOutcome where
  | ok (c : PointCloud)
  | panicked
  | diverged
deriving DecidableEq, Repr

/-- Model of `PointCloud::from_ply` on an in-memory file.  The header loop
consumes one line per iteration and is stationary once the file is
exhausted (`headerLoop_empty`), so fuel `file.length + 1` decides between
exit and divergence. -/
def PointCloud.from_ply (file : List (List Char)) : PlyOutcome :=
  match headerLoop (file.length + 1) file 0 false with
  | none => PlyOutcome.diverged
  | some HeaderOut.panicked => PlyOutcome.panicked
  | some (HeaderOut.done vc hc rest) =>
    match bodyLoop hc vc.toNat rest PointCloud.new with
    | none => PlyOutcome.panicked
    | some c => PlyOutcome.ok c

/-! ### The spatial deduplicator (`PointCloud::voxel_downsample`) -/

/-- Saturating `as i32` cast applied to the floored cell coordinate. -/
def satI32 (z : ℤ) : ℤ := max (-2147483648) (min 2147483647 z)

/-- Mathematical floor of a rational, modelling `f32::floor` exactly. -/
def floorQ (q : ℚ) : ℤ := Int.fdiv q.num q.den

/-- Model of the cell key computation of `voxel_downsample` (source lines
70–74): floor each coordinate divided by the voxel size and cast `as i32`
(saturating).  Division by zero follows the `ℚ` convention `q / 0 = 0`. -/
def voxelKey (vs : ℚ) (p : V3) : ℤ × ℤ × ℤ :=
  (satI32 (floorQ (p.x / vs)), satI32 (floorQ (p.y / vs)), satI32 (floorQ (p.z / vs)))

/-- One entry of the voxel map: cell key, first index, first point. -/
abbrev VoxEntry : Type := (ℤ × ℤ × ℤ) × ℕ × V3

/-- Key lookup in the association-list model of the voxel `HashMap`. -/
def lookupKey : List VoxEntry → ℤ × ℤ × ℤ → Option (ℕ × V3)
  | [], _ => none
  | e :: es, k => if e.1 = k then some e.2 else lookupKey es k

/-- Model of `voxels.entry(key).or_insert((i, *p))`: insert only when the
key is absent, appending in first-insertion order. -/
def insVox (m : List VoxEntry) (key : ℤ × ℤ × ℤ) (i : ℕ) (p : V3) : List VoxEntry :=
  match lookupKey m key with
  | some _ => m
  | none => m ++ [(key, i, p)]

/-- Worker for `buildVoxels`: scan the points in input order with their
indices starting at `i`. -/
def bvGo (vs : ℚ) : List V3 → ℕ → List VoxEntry → List VoxEntry
  | [], _, m => m
  | p :: rest, i, m => bvGo vs rest (i + 1) (insVox m (voxelKey vs p) i p)

/-- Model of the scan of source lines 69–76: the voxel map after inserting
every point, as an insertion-ordered association list. -/
def buildVoxels (vs : ℚ) (pts : List V3) : List VoxEntry := bvGo vs pts 0 []

/-- Model of `voxels.values().map(|(i, _)| *i).collect()` (source line 78),
with `values()` in first-insertion order. -/
def voxelIndices (vs : ℚ) (pts : List V3) : List ℕ :=
  (buildVoxels vs pts).map fun e => e.2.1

/-- Model of `indices.iter().map(|&i| xs[i]).collect()`: select the
elements at the given indices; `none` models the indexing panic. -/
def selectIdx {α : Type} (xs : List α) : List ℕ → Option (List α)
  | [] => some []
  | i :: is =>
    match nth xs i with
    | none => none
    | some x =>
      match selectIdx xs is with
      | none => none
      | some ys => some (x :: ys)

/-- Model of `PointCloud::voxel_downsample` (source lines 66–83): build the
voxel map, collect the kept indices, and select `points` (and `colors`
when non-empty) at those indices.  `none` models the indexing panic, which
is reachable for `colors` shorter than `points`. -/
def PointCloud.voxel_downsample (c : PointCloud) (vs : ℚ) : Option PointCloud :=
  let indices := voxelIndices vs c.points
  match selectIdx c.points indices with
  | none => none
  | some pts =>
    if c.colors.isEmpty then some { c with points := pts }
    else
      match selectIdx c.colors indices with
      | none => none
      | some cols => some { c with points := pts, colors := cols }

/-- Order-generic model of `voxel_downsample`: the same body, but the
sequence `vox` in which `voxels.values()` yields the entries is an explicit
parameter.  The source's `HashMap` iterates in an unspecified order (a
fresh randomized hasher per call), so a faithful statement about a run of
the program quantifies over every `vox` that is a permutation of the map
contents `buildVoxels vs c.points`; `voxel_downsample` is the instance that
fixes `vox` to first-insertion order. -/
def PointCloud.voxel_downsample_ord (c : PointCloud) (vs : ℚ)
    (vox : List VoxEntry) : Option PointCloud :=
  let indices := vox.map fun e => e.2.1
  match selectIdx c.points indices with
  | none => none
  | some pts =>
    if c.colors.isEmpty then some { c with points := pts }
    else
      match selectIdx c.colors indices with
      | none => none
      | some cols => some { c with points := pts, colors := cols }

/-! ### The outlier filter (`PointCloud::remove_outliers`) -/

/-- Worker for `isqrt`: linear search for the largest root candidate. -/
def isqrtAux (n : ℕ) : ℕ → ℕ → ℕ
  | 0, r => r
  | f + 1, r => if (r + 1) * (r + 1) ≤ n then isqrtAux n f (r + 1) else r

/-- Integer square root (largest `r` with `r * r ≤ n`), by structural
recursion so that concrete instances evaluate in the kernel. -/
def isqrt (n : ℕ) : ℕ := isqrtAux n n 0

/-- Rational model of `f32::sqrt`: the integer square roots of numerator
and denominator.  It is exact at `0` and at perfect-square rationals; every
settled statement that depends on the value of a square root applies it to
`0`. -/
def ratSqrt (q : ℚ) : ℚ := (isqrt q.num.toNat : ℚ) / (isqrt q.den : ℚ)

/-- Model of the centroid computation (source lines 91–95): per-axis sum
divided by the number of points. -/
def centroid (pts : List V3) : V3 :=
  ⟨(pts.map V3.x).sum / (pts.length : ℚ),
   (pts.map V3.y).sum / (pts.length : ℚ),
   (pts.map V3.z).sum / (pts.length : ℚ)⟩

/-- Model of the per-point distance to the centroid (source lines 97–104). -/
def distTo (m p : V3) : ℚ :=
  ratSqrt ((p.x - m.x) ^ 2 + (p.y - m.y) ^ 2 + (p.z - m.z) ^ 2)

/-- Model of `xs.iter().zip(&mask).filter(|(_, &m)| m).map(|(x, _)| *x)`:
keep the elements whose mask bit is `true` (`zip` truncates to the shorter
list, as in Rust). -/
def maskFilter {α : Type} (xs : List α) (mask : List Bool) : List α :=
  ((xs.zip mask).filter fun pm => pm.2).map Prod.fst

/-- Model of `PointCloud::remove_outliers` (source lines 85–132): guard on
`points.len() < k`, centroid, distances, mean and population standard
deviation of the distances, threshold `mean + sr * std` (`sr` is the
source's `std_ratio` parameter), and mask-filtering of `points` and, when
non-empty, `colors`.  `normals` is never touched, as in the source. -/
def PointCloud.remove_outliers (c : PointCloud) (k : ℕ) (sr : ℚ) : PointCloud :=
  if c.points.length < k then c
  else
    let mean := centroid c.points
    let distances := c.points.map (distTo mean)
    let meanDist := distances.sum / (distances.length : ℚ)
    let std :=
      ratSqrt ((distances.map fun d => (d - meanDist) ^ 2).sum /
        (distances.length : ℚ))
    let threshold := meanDist + sr * std
    let mask := distances.map fun d => decide (d < threshold)
    { c with
      points := maskFilter c.points mask,
      colors := if c.colors.isEmpty then c.colors else maskFilter c.colors mask }

/-! ### Derived views and concrete examples -/

/-- The points selected by `voxel_downsample`: the stored first point of
every voxel entry, in map order.  `selectIdx` on `voxelIndices` provably
returns exactly this list. -/
def dsPoints (vs : ℚ) (pts : List V3) : List V3 :=
  (buildVoxels vs pts).map fun e => e.2.2

/-- A file whose vertex-count token is not an integer. -/
def fileBadCount : List (List Char) := ["element vertex x".data]

/-- A file whose `element vertex` line has no third token. -/
def fileMissingCount : List (List Char) := ["element vertex".data]

/-- A file with a well-formed header and a malformed numeric body token. -/
def fileBadBody : List (List Char) :=
  ["element vertex 1".data, "end_header".data, "a b c".data]

/-- A file declaring color whose first body line has only 3 tokens while
the second has 6: accepted by the reader, it produces colors shorter than
points. -/
def fileColorMismatch : List (List Char) :=
  ["element vertex 2".data, "property uchar red".data, "end_header".data,
   "0 0 0".data, "5 5 5 1 2 3".data]

/-- The cloud produced by `fileColorMismatch`: two points, one color. -/
def cloudColorMismatch : PointCloud := ⟨[⟨0, 0, 0⟩, ⟨5, 5, 5⟩], [⟨1, 2, 3⟩], []⟩

/-- A zero-variance cloud: two identical points at the origin. -/
def cloudZeroVar : PointCloud := ⟨[⟨0, 0, 0⟩, ⟨0, 0, 0⟩], [], []⟩

/-- A cloud with two coincident points and two (aligned) normals. -/
def cloudNormals : PointCloud := ⟨[⟨0, 0, 0⟩, ⟨0, 0, 0⟩], [], [⟨1, 0, 0⟩, ⟨0, 1, 0⟩]⟩

/-- The result of downsampling `cloudNormals` at voxel size 1: the points
collapse to one, the normals stay at length two. -/
def cloudNormalsOut : PointCloud := ⟨[⟨0, 0, 0⟩], [], [⟨1, 0, 0⟩, ⟨0, 1, 0⟩]⟩

/-- A three-point cloud whose first two points share a voxel cell at size 1. -/
def cloudThree : PointCloud := ⟨[⟨0, 0, 0⟩, ⟨0, 0, 0⟩, ⟨5, 5, 5⟩], [], []⟩

/-- The result of downsampling `cloudThree` at voxel size 1 under the
first-insertion iteration order. -/
def cloudThreeOut : PointCloud := ⟨[⟨0, 0, 0⟩, ⟨5, 5, 5⟩], [], []⟩

/-- The voxel map contents of `cloudThreeOut` at voxel size 1, listed in
the opposite of insertion order: an admissible `values()` iteration order
of the source's unordered hash map. -/
def voxSwap : List VoxEntry := [((5, 5, 5), 1, ⟨5, 5, 5⟩), ((0, 0, 0), 0, ⟨0, 0, 0⟩)]

/-- Downsampling `cloudThreeOut` again under the `voxSwap` iteration order
returns its points in the opposite order. -/
def cloudThreeOutSwap : PointCloud := ⟨[⟨5, 5, 5⟩, ⟨0, 0, 0⟩], [], []⟩

/-- A two-point cloud with aligned colors. -/
def cloudAligned : PointCloud :=
  ⟨[⟨0, 0, 0⟩, ⟨5, 5, 5⟩], [⟨1, 2, 3⟩, ⟨4, 5, 6⟩], []⟩

/-- A one-point cloud, below the `k = 5` guard of the outlier filter. -/
def cloudSmall : PointCloud := ⟨[⟨1, 2, 3⟩], [], []⟩

/-! ### Shared lemmas about the list primitives -/

@[simp]
theorem nth_nil {α : Type} (n : ℕ) : nth ([] : List α) n = none := by
  cases n <;> rfl

@[simp]
theorem nth_cons_zero {α : Type} (x : α) (xs : List α) : nth (x :: xs) 0 = some x := rfl

@[simp]
theorem nth_cons_succ {α : Type} (x : α) (xs : List α) (n : ℕ) :
    nth (x :: xs) (n + 1) = nth xs n := rfl

theorem nth_some_lt {α : Type} :
    ∀ (xs : List α) (n : ℕ) (x : α), nth xs n = some x → n < xs.length
  | [], n, x, h => by simp at h
  | _ :: _, 0, _, _ => Nat.succ_pos _
  | _ :: xs, n + 1, x, h => Nat.succ_lt_succ (nth_some_lt xs n x h)

theorem nth_lt_some {α : Type} :
    ∀ (xs : List α) (n : ℕ), n < xs.length → ∃ x, nth xs n = some x
  | [], n, h => absurd h (by simp)
  | x :: _, 0, _ => ⟨x, rfl⟩
  | _ :: xs, n + 1, h => nth_lt_some xs n (Nat.lt_of_succ_lt_succ h)

theorem nth_mem {α : Type} :
    ∀ (xs : List α) (n : ℕ) (x : α), nth xs n = some x → x ∈ xs
  | [], n, x, h => by simp at h
  | y :: _, 0, x, h => by
    simp at h
    exact h ▸ List.mem_cons_self y _
  | y :: xs, n + 1, x, h => List.mem_cons_of_mem y (nth_mem xs n x h)

theorem selectIdx_forall2 {α : Type} (xs : List α) :
    ∀ (is : List ℕ) (ys : List α),
      selectIdx xs is = some ys ↔ List.Forall₂ (fun i y => nth xs i = some y) is ys := by
  intro is
  induction is with
  | nil =>
    intro ys
    constructor
    · intro h
      cases h
      exact List.Forall₂.nil
    · intro h
      cases h
      rfl
  | cons i is ih =>
    intro ys
    constructor
    · intro h
      unfold selectIdx at h
      cases hx : nth xs i with
      | none => rw [hx] at h; exact absurd h (by simp)
      | some x =>
        rw [hx] at h
        cases hs : selectIdx xs is with
        | none => rw [hs] at h; exact absurd h (by simp)
        | some zs =>
          rw [hs] at h
          simp at h
          subst h
          exact List.Forall₂.cons hx ((ih zs).mp hs)
    · intro h
      cases h with
      | cons hy htail =>
        unfold selectIdx
        rw [hy, (ih _).mpr htail]

theorem selectIdx_map {α β : Type} (xs : List α) (f : β → ℕ) (g : β → α) :
    ∀ (l : List β), (∀ e ∈ l, nth xs (f e) = some (g e)) →
      selectIdx xs (l.map f) = some (l.map g)
  | [], _ => rfl
  | e :: l, h => by
    have he := h e (List.mem_cons_self e l)
    have ht := selectIdx_map xs f g l fun b hb => h b (List.mem_cons_of_mem e hb)
    simp only [List.map_cons]
    unfold selectIdx
    rw [he, ht]

theorem selectIdx_shift {α : Type} (x : α) (xs : List α) :
    ∀ (is : List ℕ), selectIdx (x :: xs) (is.map Nat.succ) = selectIdx xs is
  | [] => rfl
  | i :: is => by
    simp only [List.map_cons]
    unfold selectIdx
    rw [nth_cons_succ, selectIdx_shift x xs is]

theorem selectIdx_range {α : Type} :
    ∀ (xs : List α), selectIdx xs (List.range xs.length) = some xs
  | [] => rfl
  | x :: xs => by
    rw [List.length_cons, List.range_succ_eq_map]
    unfold selectIdx
    rw [nth_cons_zero, selectIdx_shift x xs (List.range xs.length), selectIdx_range xs]

theorem maskFilter_sublist {α : Type} :
    ∀ (xs : List α) (mask : List Bool), (maskFilter xs mask).Sublist xs
  | [], _ => by simp [maskFilter]
  | _ :: _, [] => by simp [maskFilter]
  | x :: xs, m :: mask => by
    cases m with
    | false =>
      simpa [maskFilter, List.zip_cons_cons] using (maskFilter_sublist xs mask).cons x
    | true =>
      simpa [maskFilter, List.zip_cons_cons] using (maskFilter_sublist xs mask).cons₂ x

theorem maskFilter_all_false {α : Type} :
    ∀ (xs : List α) (n : ℕ), maskFilter xs (List.replicate n false) = []
  | [], _ => by simp [maskFilter]
  | _ :: _, 0 => by simp [maskFilter]
  | x :: xs, n + 1 => by
    simpa [maskFilter, List.replicate_succ, List.zip_cons_cons] using
      maskFilter_all_false xs n

/-- The header loop of `from_ply` is stationary on an exhausted file: no
amount of fuel makes it exit, because `read_line` keeps yielding the empty
line and no empty line trims to `end_header`. -/
theorem headerLoop_empty : ∀ (fuel : ℕ) (vc : ℤ) (hc : Bool),
    headerLoop fuel [] vc hc = none := by
  intro fuel
  induction fuel with
  | zero => intro vc hc; rfl
  | succ f ih =>
    intro vc hc
    have h1 : pfx evTag [] = false := rfl
    have h2 : hasSub redTag [] = false := rfl
    have h3 : trimWS [] ≠ ehTag := by decide
    simp only [headerLoop, nextLine, h1, h2, if_neg h3, Bool.if_false_left]
    simp [ih]

/-! ### Lemmas about the voxel map -/

theorem lookupKey_eq_none :
    ∀ (m : List VoxEntry) (k : ℤ × ℤ × ℤ),
      lookupKey m k = none ↔ ∀ e ∈ m, e.1 ≠ k
  | [], k => by simp [lookupKey]
  | e :: m, k => by
    by_cases h : e.1 = k
    · simp [lookupKey, h]
    · simp [lookupKey, h, lookupKey_eq_none m k]

theorem insVox_len (m : List VoxEntry) (k : ℤ × ℤ × ℤ) (i : ℕ) (p : V3) :
    (insVox m k i p).length ≤ m.length + 1 := by
  unfold insVox
  cases lookupKey m k with
  | none => simp
  | some v => simp

theorem bvGo_len (vs : ℚ) :
    ∀ (pts : List V3) (i0 : ℕ) (m : List VoxEntry),
      (bvGo vs pts i0 m).length ≤ m.length + pts.length
  | [], _, m => le_of_eq rfl
  | p :: rest, i0, m => by
    calc (bvGo vs rest (i0 + 1) (insVox m (voxelKey vs p) i0 p)).length
        ≤ (insVox m (voxelKey vs p) i0 p).length + rest.length := bvGo_len vs rest _ _
      _ ≤ m.length + 1 + rest.length :=
          Nat.add_le_add_right (insVox_len m _ i0 p) rest.length
      _ = m.length + (p :: rest).length := by simp [List.length_cons]; omega

theorem insVox_mem (m : List VoxEntry) (k : ℤ × ℤ × ℤ) (i : ℕ) (p : V3)
    (e : VoxEntry) (he : e ∈ insVox m k i p) : e ∈ m ∨ e = (k, i, p) := by
  unfold insVox at he
  cases hl : lookupKey m k with
  | some v =>
    rw [hl] at he
    exact Or.inl he
  | none =>
    rw [hl] at he
    rcases List.mem_append.mp he with h | h
    · exact Or.inl h
    · simp at h
      exact Or.inr h

theorem bvGo_mem (vs : ℚ) :
    ∀ (pts : List V3) (i0 : ℕ) (m : List VoxEntry) (e : VoxEntry),
      e ∈ bvGo vs pts i0 m →
        e ∈ m ∨ ∃ j, nth pts j = some e.2.2 ∧ e.2.1 = i0 + j ∧ voxelKey vs e.2.2 = e.1
  | [], _, _, _, he => Or.inl he
  | p :: rest, i0, m, e, he => by
    rcases bvGo_mem vs rest (i0 + 1) (insVox m (voxelKey vs p) i0 p) e he with h | ⟨j, h1, h2, h3⟩
    · rcases insVox_mem m (voxelKey vs p) i0 p e h with h' | h'
      · exact Or.inl h'
      · refine Or.inr ⟨0, ?_, ?_, ?_⟩
        · simp [h']
        · simp [h']
        · simp [h']
    · exact Or.inr ⟨j + 1, by simpa using h1, by omega, h3⟩

theorem buildVoxels_mem (vs : ℚ) (pts : List V3) (e : VoxEntry)
    (he : e ∈ buildVoxels vs pts) :
    nth pts e.2.1 = some e.2.2 ∧ voxelKey vs e.2.2 = e.1 := by
  rcases bvGo_mem vs pts 0 [] e he with h | ⟨j, h1, h2, h3⟩
  · simp at h
  · constructor
    · rw [h2, Nat.zero_add]
      exact h1
    · exact h3

theorem insVox_keys (m : List VoxEntry) (k : ℤ × ℤ × ℤ) (i : ℕ) (p : V3)
    (hm : m.Pairwise fun a b => a.1 ≠ b.1) :
    (insVox m k i p).Pairwise fun a b => a.1 ≠ b.1 := by
  unfold insVox
  cases hl : lookupKey m k with
  | some v => exact hm
  | none =>
    rw [List.pairwise_append]
    refine ⟨hm, List.pairwise_singleton _ _, ?_⟩
    intro a ha b hb
    simp at hb
    rw [hb]
    exact (lookupKey_eq_none m k).mp hl a ha

theorem bvGo_keys (vs : ℚ) :
    ∀ (pts : List V3) (i0 : ℕ) (m : List VoxEntry),
      (m.Pairwise fun a b => a.1 ≠ b.1) →
        (bvGo vs pts i0 m).Pairwise fun a b => a.1 ≠ b.1
  | [], _, _, hm => hm
  | p :: rest, i0, m, hm =>
    bvGo_keys vs rest (i0 + 1) _ (insVox_keys m (voxelKey vs p) i0 p hm)

theorem buildVoxels_keys (vs : ℚ) (pts : List V3) :
    (buildVoxels vs pts).Pairwise fun a b => a.1 ≠ b.1 :=
  bvGo_keys vs pts 0 [] List.Pairwise.nil

theorem bvGo_fresh (vs : ℚ) :
    ∀ (pts : List V3) (i0 : ℕ) (m : List VoxEntry),
      (pts.Pairwise fun p q => voxelKey vs p ≠ voxelKey vs q) →
      (∀ e ∈ m, ∀ p ∈ pts, e.1 ≠ voxelKey vs p) →
        bvGo vs pts i0 m =
          m ++ (List.enumFrom i0 pts).map fun ip => (voxelKey vs ip.2, ip.1, ip.2)
  | [], _, m, _, _ => by simp [bvGo]
  | p :: rest, i0, m, hpw, hm => by
    have hnone : lookupKey m (voxelKey vs p) = none :=
      (lookupKey_eq_none m _).mpr fun e he => hm e he p (List.mem_cons_self p rest)
    have hins : insVox m (voxelKey vs p) i0 p = m ++ [(voxelKey vs p, i0, p)] := by
      unfold insVox
      rw [hnone]
    rw [List.pairwise_cons] at hpw
    have hm' : ∀ e ∈ m ++ [(voxelKey vs p, i0, p)], ∀ q ∈ rest, e.1 ≠ voxelKey vs q := by
      intro e he q hq
      rcases List.mem_append.mp he with h | h
      · exact hm e h q (List.mem_cons_of_mem p hq)
      · simp at h
        rw [h]
        exact hpw.1 q hq
    calc bvGo vs (p :: rest) i0 m
        = bvGo vs rest (i0 + 1) (m ++ [(voxelKey vs p, i0, p)]) := by
          rw [bvGo, hins]
      _ = (m ++ [(voxelKey vs p, i0, p)]) ++
            (List.enumFrom (i0 + 1) rest).map (fun ip => (voxelKey vs ip.2, ip.1, ip.2)) :=
          bvGo_fresh vs rest (i0 + 1) _ hpw.2 hm'
      _ = m ++ (List.enumFrom i0 (p :: rest)).map (fun ip => (voxelKey vs ip.2, ip.1, ip.2)) := by
          simp [List.enumFrom_cons, List.append_assoc]

theorem buildVoxels_of_pairwise (vs : ℚ) (pts : List V3)
    (h : pts.Pairwise fun p q => voxelKey vs p ≠ voxelKey vs q) :
    buildVoxels vs pts = (List.enumFrom 0 pts).map fun ip => (voxelKey vs ip.2, ip.1, ip.2) := by
  have := bvGo_fresh vs pts 0 [] h (by intro e he; simp at he)
  simpa [buildVoxels] using this

/-! ### Lemmas about the downsampled point list -/

theorem selectIdx_dsPoints (vs : ℚ) (pts : List V3) :
    selectIdx pts (voxelIndices vs pts) = some (dsPoints vs pts) := by
  unfold voxelIndices dsPoints
  exact selectIdx_map pts (fun e => e.2.1) (fun e => e.2.2) (buildVoxels vs pts)
    fun e he => (buildVoxels_mem vs pts e he).1

theorem dsPoints_length_le (vs : ℚ) (pts : List V3) :
    (dsPoints vs pts).length ≤ pts.length := by
  have h := bvGo_len vs pts 0 []
  simpa [dsPoints, buildVoxels] using h

theorem dsPoints_mem (vs : ℚ) (pts : List V3) (p : V3) (hp : p ∈ dsPoints vs pts) :
    p ∈ pts := by
  rcases List.mem_map.mp hp with ⟨e, he, hep⟩
  exact hep ▸ nth_mem pts e.2.1 e.2.2 (buildVoxels_mem vs pts e he).1

theorem dsPoints_pairwise (vs : ℚ) (pts : List V3) :
    (dsPoints vs pts).Pairwise fun p q => voxelKey vs p ≠ voxelKey vs q := by
  have hk : (buildVoxels vs pts).Pairwise
      (fun a b => voxelKey vs a.2.2 ≠ voxelKey vs b.2.2) := by
    refine (buildVoxels_keys vs pts).imp_of_mem ?_
    intro a b ha hb hab
    rw [(buildVoxels_mem vs pts a ha).2, (buildVoxels_mem vs pts b hb).2]
    exact hab
  exact List.pairwise_map.mpr hk

theorem voxelIndices_of_pairwise (vs : ℚ) (pts : List V3)
    (h : pts.Pairwise fun p q => voxelKey vs p ≠ voxelKey vs q) :
    voxelIndices vs pts = List.range pts.length := by
  unfold voxelIndices
  rw [buildVoxels_of_pairwise vs pts h, List.map_map]
  have : ((fun e : VoxEntry => e.2.1) ∘ fun ip : ℕ × V3 => (voxelKey vs ip.2, ip.1, ip.2)) =
      Prod.fst := rfl
  rw [this, List.enumFrom_map_fst, ← List.range_eq_range']

/-! ### Frame lemmas for normals -/

theorem voxel_downsample_normals (c : PointCloud) (vs : ℚ) (c' : PointCloud)
    (h : c.voxel_downsample vs = some c') : c'.normals = c.normals := by
  simp only [PointCloud.voxel_downsample] at h
  cases h1 : selectIdx c.points (voxelIndices vs c.points) with
  | none =>
    rw [h1] at h
    cases h
  | some pts =>
    rw [h1] at h
    dsimp only at h
    by_cases hc : c.colors.isEmpty
    · rw [if_pos hc] at h
      cases h
      rfl
    · rw [if_neg hc] at h
      cases h2 : selectIdx c.colors (voxelIndices vs c.points) with
      | none =>
        rw [h2] at h
        cases h
      | some cols =>
        rw [h2] at h
        cases h
        rfl

theorem remove_outliers_normals (c : PointCloud) (k : ℕ) (sr : ℚ) :
    (c.remove_outliers k sr).normals = c.normals := by
  unfold PointCloud.remove_outliers
  split
  · rfl
  · rfl

theorem selectIdx_total {α : Type} (xs : List α) :
    ∀ (is : List ℕ), (∀ i ∈ is, i < xs.length) → ∃ ys, selectIdx xs is = some ys
  | [], _ => ⟨[], rfl⟩
  | i :: is, h => by
    obtain ⟨x, hx⟩ := nth_lt_some xs i (h i (List.mem_cons_self i is))
    obtain ⟨ys, hys⟩ := selectIdx_total xs is fun j hj => h j (List.mem_cons_of_mem i hj)
    refine ⟨x :: ys, ?_⟩
    unfold selectIdx
    rw [hx, hys]

theorem voxelIndices_lt (vs : ℚ) (pts : List V3) :
    ∀ i ∈ voxelIndices vs pts, i < pts.length := by
  intro i hi
  rcases List.mem_map.mp hi with ⟨e, he, hei⟩
  exact hei ▸ nth_some_lt _ _ _ (buildVoxels_mem vs pts e he).1

/-- Totality and shape of `voxel_downsample` under the alignment
invariant: the run returns a cloud whose points are `dsPoints`, whose
normals are untouched, and which satisfies the invariant again. -/
theorem voxel_downsample_spec (c : PointCloud) (vs : ℚ)
    (h : c.colors = [] ∨ c.colors.length = c.points.length) :
    ∃ c', c.voxel_downsample vs = some c' ∧
      c'.points = dsPoints vs c.points ∧
      c'.normals = c.normals ∧
      (c'.colors = [] ∨ c'.colors.length = c'.points.length) := by
  by_cases hemp : c.colors.isEmpty
  · refine ⟨{ c with points := dsPoints vs c.points }, ?_, rfl, rfl, Or.inl ?_⟩
    · simp only [PointCloud.voxel_downsample]
      rw [selectIdx_dsPoints]
      dsimp only
      rw [if_pos hemp]
    · simpa using hemp
  · have hne : c.colors ≠ [] := by simpa using hemp
    have hlen : c.colors.length = c.points.length := h.resolve_left hne
    obtain ⟨cols, hcols⟩ :=
      selectIdx_total c.colors (voxelIndices vs c.points)
        fun i hi => hlen ▸ voxelIndices_lt vs c.points i hi
    refine ⟨{ c with points := dsPoints vs c.points, colors := cols }, ?_, rfl, rfl, Or.inr ?_⟩
    · simp only [PointCloud.voxel_downsample]
      rw [selectIdx_dsPoints]
      dsimp only
      rw [if_neg hemp, hcols]
    · have hf2c := (selectIdx_forall2 c.colors _ cols).mp hcols
      have hf2p := (selectIdx_forall2 c.points _ (dsPoints vs c.points)).mp
        (selectIdx_dsPoints vs c.points)
      dsimp only
      rw [← hf2c.length_eq, hf2p.length_eq]

theorem selectIdx_count {α : Type} [DecidableEq α] (xs : List α) :
    ∀ (is : List ℕ) (ys : List α), selectIdx xs is = some ys →
      ∀ a, ys.count a = is.countP fun i => decide (nth xs i = some a)
  | [], ys, h, a => by
    cases h
    simp
  | i :: t, ys, h, a => by
    unfold selectIdx at h
    cases hx : nth xs i with
    | none =>
      rw [hx] at h
      simp at h
    | some v =>
      rw [hx] at h
      cases ht : selectIdx xs t with
      | none =>
        rw [ht] at h
        simp at h
      | some tys =>
        rw [ht] at h
        cases h
        have ih := selectIdx_count xs t tys ht a
        by_cases hva : v = a
        · simp [List.count_cons, List.countP_cons, hx, ih, hva]
        · simp [List.count_cons, List.countP_cons, hx, ih, hva, Ne.symm hva]

/-- Selections of the same in-bounds index multiset agree up to
permutation: the order-sensitive part of `voxel_downsample` is exactly the
order of the index list. -/
theorem selectIdx_perm {α : Type} [DecidableEq α] (xs : List α) {is is' : List ℕ}
    (hperm : is.Perm is') {ys ys' : List α}
    (h1 : selectIdx xs is = some ys) (h2 : selectIdx xs is' = some ys') :
    ys.Perm ys' := by
  rw [List.perm_iff_count]
  intro a
  rw [selectIdx_count xs is ys h1 a, selectIdx_count xs is' ys' h2 a]
  exact hperm.countP_eq _

/-- Totality and shape of `voxel_downsample_ord` under the alignment
invariant, for every admissible iteration order `vox`: the run returns a
cloud whose points are the stored representatives in `vox` order, whose
normals are untouched, which satisfies the invariant again, and whose
points occupy pairwise distinct cells. -/
theorem voxel_downsample_ord_spec (c : PointCloud) (vs : ℚ) (vox : List VoxEntry)
    (hperm : vox.Perm (buildVoxels vs c.points))
    (h : c.colors = [] ∨ c.colors.length = c.points.length) :
    ∃ c', c.voxel_downsample_ord vs vox = some c' ∧
      c'.points = (vox.map fun e => e.2.2) ∧
      c'.normals = c.normals ∧
      (c'.colors = [] ∨ c'.colors.length = c'.points.length) ∧
      (c'.points.Pairwise fun p q => voxelKey vs p ≠ voxelKey vs q) := by
  have hmem : ∀ e ∈ vox, e ∈ buildVoxels vs c.points := fun e he => hperm.subset he
  have hsel : selectIdx c.points (vox.map fun e => e.2.1) = some (vox.map fun e => e.2.2) :=
    selectIdx_map c.points (fun e => e.2.1) (fun e => e.2.2) vox
      fun e he => (buildVoxels_mem vs c.points e (hmem e he)).1
  have hboundv : ∀ i ∈ vox.map fun e : VoxEntry => e.2.1, i < c.points.length := by
    intro i hi
    rcases List.mem_map.mp hi with ⟨e, he, hei⟩
    exact hei ▸ nth_some_lt _ _ _ (buildVoxels_mem vs c.points e (hmem e he)).1
  have hpwv : (vox.map fun e => e.2.2).Pairwise
      fun p q => voxelKey vs p ≠ voxelKey vs q := by
    have hk : vox.Pairwise fun a b : VoxEntry => a.1 ≠ b.1 :=
      (hperm.pairwise_iff fun hab hba => hab hba.symm).mpr (buildVoxels_keys vs c.points)
    refine List.pairwise_map.mpr (hk.imp_of_mem ?_)
    intro a b ha hb hab
    rw [(buildVoxels_mem vs c.points a (hmem a ha)).2,
      (buildVoxels_mem vs c.points b (hmem b hb)).2]
    exact hab
  by_cases hemp : c.colors.isEmpty
  · refine ⟨{ c with points := vox.map fun e => e.2.2 }, ?_, rfl, rfl, Or.inl ?_, hpwv⟩
    · simp only [PointCloud.voxel_downsample_ord]
      rw [hsel]
      dsimp only
      rw [if_pos hemp]
    · simpa using hemp
  · have hne : c.colors ≠ [] := by simpa using hemp
    have hlen : c.colors.length = c.points.length := h.resolve_left hne
    obtain ⟨cols, hcols⟩ :=
      selectIdx_total c.colors (vox.map fun e => e.2.1) fun i hi => hlen ▸ hboundv i hi
    refine ⟨{ c with points := vox.map fun e => e.2.2, colors := cols }, ?_, rfl, rfl,
      Or.inr ?_, hpwv⟩
    · simp only [PointCloud.voxel_downsample_ord]
      rw [hsel]
      dsimp only
      rw [if_neg hemp, hcols]
    · have hf2c := (selectIdx_forall2 c.colors _ cols).mp hcols
      have hf2p := (selectIdx_forall2 c.points _ _).mp hsel
      dsimp only
      rw [← hf2c.length_eq, hf2p.length_eq]

theorem ratSqrt_zero : ratSqrt 0 = 0 := by decide

/-! ### Claim theorems -/

/-- C2 counterexample: on a file whose vertex-count token is not an
integer, `from_ply` does not return a recoverable error value — the
operation panics (the model's `panicked` outcome, the `unwrap` of the
failed parse), refuting the claim that every input yields a store or an
error string. -/
theorem from_ply_bad_count_outcome :
    PointCloud.from_ply fileBadCount = PlyOutcome.panicked := by decide

/-- C2 amended: a missing vertex-count token, and a malformed numeric
token in a body line, each cause an unrecoverable panic of `from_ply`
(the `unwrap` aborts), not a returned error value; only I/O failures
travel through the `Result` error channel. -/
theorem from_ply_parse_failures :
    PointCloud.from_ply fileMissingCount = PlyOutcome.panicked ∧
    PointCloud.from_ply fileBadBody = PlyOutcome.panicked := by decide

/-- C3 (code_bug): the header-reading phase of `from_ply` does not
terminate on every file.  On a file with no `end_header` line — here the
empty file — `read_line` yields the empty line forever and the loop never
exits: no fuel bound makes `headerLoop` return, and the model flags the
run as divergent. -/
theorem from_ply_header_nonterminating :
    (∀ (fuel : ℕ) (vc : ℤ) (hc : Bool), headerLoop fuel [] vc hc = none) ∧
    PointCloud.from_ply [] = PlyOutcome.diverged :=
  ⟨headerLoop_empty, by decide⟩

/-- C7: for every cloud and all `k`, `sr`, the points surviving
`remove_outliers` form a sublist of the input points — the filter never
increases cardinality and keeps the relative input order (it filters by
mask). -/
theorem remove_outliers_order_stable (c : PointCloud) (k : ℕ) (sr : ℚ) :
    ((c.remove_outliers k sr).points).Sublist c.points ∧
    (c.remove_outliers k sr).points.length ≤ c.points.length := by
  have hsub : ((c.remove_outliers k sr).points).Sublist c.points := by
    unfold PointCloud.remove_outliers
    split
    · exact List.Sublist.refl _
    · exact maskFilter_sublist _ _
  exact ⟨hsub, hsub.length_le⟩

/-- C8: when the cloud has fewer points than `k`, `remove_outliers` is a
no-op: the guard returns the cloud unchanged, points, colors and normals
included, regardless of the distances. -/
theorem remove_outliers_below_k (c : PointCloud) (k : ℕ) (sr : ℚ)
    (h : c.points.length < k) : c.remove_outliers k sr = c := by
  unfold PointCloud.remove_outliers
  rw [if_pos h]

/-- Witness for C8 at a concrete one-point cloud and `k = 5`. -/
theorem remove_outliers_below_k_w :
    cloudSmall.points.length < 5 ∧ cloudSmall.remove_outliers 5 (1 / 2) = cloudSmall :=
  ⟨by decide, remove_outliers_below_k cloudSmall 5 (1 / 2) (by decide)⟩

/-- C9 counterexample: `voxel_downsample` does not apply the index
selection to `normals`.  On a cloud with two coincident points and two
normals, downsampling keeps one point but leaves both normals, so the
lengths disagree afterwards. -/
theorem voxel_downsample_normals_cex :
    cloudNormals.voxel_downsample 1 = some cloudNormalsOut ∧
    cloudNormalsOut.normals.length ≠ cloudNormalsOut.points.length := by decide

/-- C9 amended: the two mutating operations apply the index selection to
`colors` only; `normals` is left untouched by both `voxel_downsample` and
`remove_outliers`, so a cloud with non-empty normals loses alignment
whenever points are removed. -/
theorem mutators_leave_normals :
    (∀ (c : PointCloud) (vs : ℚ) (c' : PointCloud),
      c.voxel_downsample vs = some c' → c'.normals = c.normals) ∧
    (∀ (c : PointCloud) (k : ℕ) (sr : ℚ), (c.remove_outliers k sr).normals = c.normals) :=
  ⟨voxel_downsample_normals, remove_outliers_normals⟩

/-- Witness for C9 amended at the concrete `cloudNormals`. -/
theorem mutators_leave_normals_w :
    cloudNormalsOut.normals = cloudNormals.normals ∧
    (cloudNormals.remove_outliers 0 1).normals = cloudNormals.normals :=
  ⟨mutators_leave_normals.1 cloudNormals 1 cloudNormalsOut (by decide),
   mutators_leave_normals.2 cloudNormals 0 1⟩

/-- C10: a file accepted by `from_ply` — header declaring color via a line
containing `red`, one body line with 3 tokens and one with 6 — produces a
cloud with `0 < len(colors) < len(points)`, and on that cloud
`voxel_downsample` reaches the out-of-bounds branch of the color lookup:
the selection step returns no value (the indexing panic is reachable). -/
theorem from_ply_color_oob :
    PointCloud.from_ply fileColorMismatch = PlyOutcome.ok cloudColorMismatch ∧
    0 < cloudColorMismatch.colors.length ∧
    cloudColorMismatch.colors.length < cloudColorMismatch.points.length ∧
    cloudColorMismatch.voxel_downsample 1 = none := by decide

/-- C4: for every cloud satisfying the alignment invariant with non-empty
colors, `voxel_downsample` succeeds, the result has as many colors as
points, and the surviving colors are selected by exactly the same indices
as the surviving points. -/
theorem voxel_downsample_colors_aligned (c : PointCloud) (vs : ℚ)
    (h1 : c.colors ≠ []) (h2 : c.colors.length = c.points.length) :
    ∃ c', c.voxel_downsample vs = some c' ∧
      c'.colors.length = c'.points.length ∧
      List.Forall₂ (fun i p => nth c.points i = some p) (voxelIndices vs c.points) c'.points ∧
      List.Forall₂ (fun i col => nth c.colors i = some col) (voxelIndices vs c.points) c'.colors := by
  have hemp : ¬c.colors.isEmpty := by simpa using h1
  obtain ⟨cols, hcols⟩ :=
    selectIdx_total c.colors (voxelIndices vs c.points)
      fun i hi => h2 ▸ voxelIndices_lt vs c.points i hi
  refine ⟨{ c with points := dsPoints vs c.points, colors := cols }, ?_, ?_, ?_, ?_⟩
  · simp only [PointCloud.voxel_downsample]
    rw [selectIdx_dsPoints]
    dsimp only
    rw [if_neg hemp, hcols]
  · have hf2c := (selectIdx_forall2 c.colors _ cols).mp hcols
    have hf2p := (selectIdx_forall2 c.points _ (dsPoints vs c.points)).mp
      (selectIdx_dsPoints vs c.points)
    dsimp only
    rw [← hf2c.length_eq, hf2p.length_eq]
  · exact (selectIdx_forall2 c.points _ _).mp (selectIdx_dsPoints vs c.points)
  · exact (selectIdx_forall2 c.colors _ _).mp hcols

/-- Witness for C4 at a concrete two-point, two-color cloud. -/
theorem voxel_downsample_colors_aligned_w :
    (cloudAligned.colors ≠ [] ∧ cloudAligned.colors.length = cloudAligned.points.length) ∧
    ∃ c', cloudAligned.voxel_downsample 1 = some c' ∧
      c'.colors.length = c'.points.length ∧
      List.Forall₂ (fun i p => nth cloudAligned.points i = some p)
        (voxelIndices 1 cloudAligned.points) c'.points ∧
      List.Forall₂ (fun i col => nth cloudAligned.colors i = some col)
        (voxelIndices 1 cloudAligned.points) c'.colors :=
  ⟨⟨by decide, by decide⟩,
   voxel_downsample_colors_aligned cloudAligned 1 (by decide) (by decide)⟩

/-- C5 counterexample: `voxel_downsample` is not literally idempotent as a
program property.  `cloudThreeOut` is already downsampled at voxel size 1
(first conjunct), and `voxSwap` is an admissible iteration order of the
second call's voxel map — a permutation of its contents — under which the
second downsample returns the points in the opposite order: the cloud is
changed, refuting "the cloud is unchanged" for the source's unordered
`values()`. -/
theorem voxel_downsample_idempotent_cex :
    cloudThree.voxel_downsample 1 = some cloudThreeOut ∧
    voxSwap.Perm (buildVoxels 1 cloudThreeOut.points) ∧
    cloudThreeOut.voxel_downsample_ord 1 voxSwap = some cloudThreeOutSwap ∧
    cloudThreeOutSwap ≠ cloudThreeOut := by
  refine ⟨by decide, ?_, by decide, by decide⟩
  have hbv : buildVoxels 1 cloudThreeOut.points =
      [((0, 0, 0), 0, ⟨0, 0, 0⟩), ((5, 5, 5), 1, ⟨5, 5, 5⟩)] := by decide
  rw [hbv]
  exact List.Perm.swap (((0, 0, 0), 0, ⟨0, 0, 0⟩) : VoxEntry)
    (((5, 5, 5), 1, ⟨5, 5, 5⟩) : VoxEntry) []

/-- C5 amended: for a cloud satisfying the alignment invariant, a second
`voxel_downsample` with the same voxel size merges nothing, whatever
iteration orders the two calls' hash maps use: every point of the
once-downsampled cloud occupies a distinct cell, so the second call keeps
them all — its result has the same cardinality, its points and colors are
the input's up to the map's iteration order (a permutation), and normals
are untouched.  The cloud is unchanged only up to that unspecified
order. -/
theorem voxel_downsample_idempotent_perm (c : PointCloud) (vs : ℚ)
    (vox1 vox2 : List VoxEntry) (c' : PointCloud)
    (h : c.colors = [] ∨ c.colors.length = c.points.length)
    (hp1 : vox1.Perm (buildVoxels vs c.points))
    (hd1 : c.voxel_downsample_ord vs vox1 = some c')
    (hp2 : vox2.Perm (buildVoxels vs c'.points)) :
    ∃ c'', c'.voxel_downsample_ord vs vox2 = some c'' ∧
      c''.points.Perm c'.points ∧
      c''.points.length = c'.points.length ∧
      c''.colors.Perm c'.colors ∧
      c''.normals = c'.normals := by
  obtain ⟨c'0, hd0, hpts, hnrm, hinv, hpw⟩ := voxel_downsample_ord_spec c vs vox1 hp1 h
  rw [hd1] at hd0
  cases hd0
  have hidx : voxelIndices vs c'.points = List.range c'.points.length :=
    voxelIndices_of_pairwise vs c'.points hpw
  have hpermIdx : (vox2.map fun e : VoxEntry => e.2.1).Perm (List.range c'.points.length) :=
    hidx ▸ hp2.map fun e : VoxEntry => e.2.1
  have hbound : ∀ i ∈ vox2.map fun e : VoxEntry => e.2.1, i < c'.points.length := by
    intro i hi
    have hmem : i ∈ List.range c'.points.length := hpermIdx.mem_iff.mp hi
    simpa using hmem
  obtain ⟨pts'', hpts''⟩ := selectIdx_total c'.points _ hbound
  have hptsperm : pts''.Perm c'.points :=
    selectIdx_perm c'.points hpermIdx hpts'' (selectIdx_range c'.points)
  by_cases hemp : c'.colors.isEmpty
  · refine ⟨{ c' with points := pts'' }, ?_, hptsperm, hptsperm.length_eq,
      List.Perm.refl _, rfl⟩
    simp only [PointCloud.voxel_downsample_ord]
    rw [hpts'']
    dsimp only
    rw [if_pos hemp]
  · have hne : c'.colors ≠ [] := by simpa using hemp
    have hlen := hinv.resolve_left hne
    obtain ⟨cols'', hcols''⟩ := selectIdx_total c'.colors _ fun i hi => hlen ▸ hbound i hi
    have hpermIdxc : (vox2.map fun e : VoxEntry => e.2.1).Perm
        (List.range c'.colors.length) := by
      rw [hlen]
      exact hpermIdx
    have hcolsperm : cols''.Perm c'.colors :=
      selectIdx_perm c'.colors hpermIdxc hcols'' (selectIdx_range c'.colors)
    refine ⟨{ c' with points := pts'', colors := cols'' }, ?_, hptsperm,
      hptsperm.length_eq, hcolsperm, rfl⟩
    simp only [PointCloud.voxel_downsample_ord]
    rw [hpts'']
    dsimp only
    rw [if_neg hemp, hcols'']

/-- Witness for C5 amended: the first call on `cloudThree` in insertion
order yields `cloudThreeOut`; the second call under the swapped iteration
order `voxSwap` keeps every point, merely permuted. -/
theorem voxel_downsample_idempotent_perm_w :
    ∃ c'', cloudThreeOut.voxel_downsample_ord 1 voxSwap = some c'' ∧
      c''.points.Perm cloudThreeOut.points ∧
      c''.points.length = cloudThreeOut.points.length ∧
      c''.colors.Perm cloudThreeOut.colors ∧
      c''.normals = cloudThreeOut.normals :=
  voxel_downsample_idempotent_perm cloudThree 1 (buildVoxels 1 cloudThree.points)
    voxSwap cloudThreeOut (Or.inl rfl) (List.Perm.refl _) (by decide)
    (by
      rw [show buildVoxels 1 cloudThreeOut.points =
          [((0, 0, 0), 0, ⟨0, 0, 0⟩), ((5, 5, 5), 1, ⟨5, 5, 5⟩)] from by decide]
      exact List.Perm.swap (((0, 0, 0), 0, ⟨0, 0, 0⟩) : VoxEntry)
        (((5, 5, 5), 1, ⟨5, 5, 5⟩) : VoxEntry) [])

/-- C6: under the alignment invariant, `voxel_downsample` succeeds and its
result never has more points than the input, every retained point is drawn
unchanged from the input, and no two retained points share a voxel cell
key. -/
theorem voxel_downsample_guarantees (c : PointCloud) (vs : ℚ)
    (h : c.colors = [] ∨ c.colors.length = c.points.length) :
    ∃ c', c.voxel_downsample vs = some c' ∧
      c'.points.length ≤ c.points.length ∧
      (∀ p ∈ c'.points, p ∈ c.points) ∧
      c'.points.Pairwise fun p q => voxelKey vs p ≠ voxelKey vs q := by
  obtain ⟨c', hd, hpts, hnrm, hinv⟩ := voxel_downsample_spec c vs h
  refine ⟨c', hd, ?_, ?_, ?_⟩
  · rw [hpts]
    exact dsPoints_length_le vs c.points
  · rw [hpts]
    exact fun p hp => dsPoints_mem vs c.points p hp
  · rw [hpts]
    exact dsPoints_pairwise vs c.points

/-- Witness for C6 at the concrete `cloudThree` and voxel size 1. -/
theorem voxel_downsample_guarantees_w :
    ∃ c', cloudThree.voxel_downsample 1 = some c' ∧
      c'.points.length ≤ cloudThree.points.length ∧
      (∀ p ∈ c'.points, p ∈ cloudThree.points) ∧
      c'.points.Pairwise fun p q => voxelKey 1 p ≠ voxelKey 1 q :=
  voxel_downsample_guarantees cloudThree 1 (Or.inl rfl)

/-- C1 counterexample: on a zero-variance cloud (two identical points at
the origin) with `len(points) = 2 ≥ k = 1`, `remove_outliers` does not
retain every point — every distance equals the threshold (both are zero)
and the strict `<` test discards all points. -/
theorem remove_outliers_zero_variance_cex :
    cloudZeroVar.remove_outliers 1 2 ≠ cloudZeroVar ∧
    (cloudZeroVar.remove_outliers 1 2).points = [] := by decide

/-- C1 amended: on a cloud whose points are all identical with
`len(points) ≥ k`, `remove_outliers` removes every point (and empties the
colors): each distance to the centroid is zero, the threshold
`mean + sr * std` is zero, and the strict comparison `0 < 0` fails for
every point. -/
theorem remove_outliers_zero_variance (q : V3) (n k : ℕ) (sr : ℚ)
    (cols : List RGB) (nrms : List V3) (hk : k ≤ n) :
    (PointCloud.remove_outliers ⟨List.replicate n q, cols, nrms⟩ k sr).points = [] ∧
    (PointCloud.remove_outliers ⟨List.replicate n q, cols, nrms⟩ k sr).colors = [] := by
  have hg : ¬ ((⟨List.replicate n q, cols, nrms⟩ : PointCloud).points.length < k) := by
    simp only [List.length_replicate]
    omega
  have hdist : (List.replicate n q).map (distTo (centroid (List.replicate n q)))
      = List.replicate n (0 : ℚ) := by
    cases n with
    | zero => rfl
    | succ m =>
      have hmean : centroid (List.replicate (m + 1) q) = q := by
        obtain ⟨qx, qy, qz⟩ := q
        have hnz : ((m : ℚ) + 1) ≠ 0 := by positivity
        unfold centroid
        simp only [List.map_replicate, List.sum_replicate, nsmul_eq_mul,
          List.length_replicate, Nat.cast_add, Nat.cast_one]
        rw [V3.mk.injEq]
        exact ⟨mul_div_cancel_left₀ qx hnz, mul_div_cancel_left₀ qy hnz,
          mul_div_cancel_left₀ qz hnz⟩
      rw [hmean, List.map_replicate]
      have h0 : distTo q q = 0 := by
        unfold distTo
        simp [ratSqrt_zero]
      rw [h0]
  simp only [PointCloud.remove_outliers]
  rw [if_neg hg]
  dsimp only
  rw [hdist]
  simp only [List.map_replicate, List.sum_replicate, List.length_replicate,
    smul_zero, zero_div, sub_zero, zero_pow, ratSqrt_zero, mul_zero, add_zero,
    lt_self_iff_false, decide_False, OfNat.ofNat_ne_zero, ne_eq,
    not_false_eq_true]
  refine ⟨maskFilter_all_false _ _, ?_⟩
  by_cases hce : cols.isEmpty
  · rw [if_pos hce]
    simpa using hce
  · rw [if_neg hce]
    exact maskFilter_all_false _ _

/-- Witness for C1 amended: two copies of the point `(1, 2, 3)` with
`k = 1` are all removed. -/
theorem remove_outliers_zero_variance_w :
    1 ≤ 2 ∧
    ((PointCloud.remove_outliers ⟨List.replicate 2 (⟨1, 2, 3⟩ : V3), [], []⟩ 1 (1 / 2)).points
        = [] ∧
      (PointCloud.remove_outliers ⟨List.replicate 2 (⟨1, 2, 3⟩ : V3), [], []⟩ 1 (1 / 2)).colors
        = []) :=
  ⟨by decide, remove_outliers_zero_variance ⟨1, 2, 3⟩ 2 1 (1 / 2) [] [] (by decide)⟩

end RScan
